import Mathlib

/-!
Shallow embedding of the template-dependency resolver, the `Dict` template
helper and the request-routing rules of the `go-example-parseFile`
repository (`src/main.go`).  Machine state is modelled explicitly: the file
store is an association list from path to content, fallible reads return
`Option`, and the unbounded recursion of `getAllTmplName` is indexed by
fuel, with `none` denoting that the recursion did not return within the
given depth.
-/

/-- A snapshot of the file store: an association list from file path to file
content.  `readFile` models `os.ReadFile` / `UrlFS.ReadFile`; `none` is a
read error. -/
def FS : Type := List (String × String)

/-- Model of `os.ReadFile` / `UrlFS.ReadFile` over the snapshot. -/
def readFile (fs : FS) (p : String) : Option String :=
  (List.find? (fun e => e.1 == p) fs).map (fun e => e.2)

/-- Split a character stream at `'/'` (accumulator reversed); character-level
model of splitting a path into components. -/
def splitSlash : List Char → List Char → List String
  | [], acc => [String.mk acc.reverse]
  | c :: cs, acc =>
    if c = '/' then String.mk acc.reverse :: splitSlash cs []
    else splitSlash cs (c :: acc)

/-- The slash-separated components of a path. -/
def pathComps (p : String) : List String :=
  splitSlash p.data []

/-- Model of Go `filepath.Base`: the final path component (trailing slashes
stripped; `"."` for the empty path, `"/"` when only slashes remain). -/
def baseName (p : String) : String :=
  if p = "" then "."
  else
    match ((pathComps p).filter (fun s => !(s == ""))).getLast? with
    | some s => s
    | none => "/"

/-- Strip an expected literal from the head of the character stream. -/
def stripLit : List Char → List Char → Option (List Char)
  | [], cs => some cs
  | _ :: _, [] => none
  | l :: ls, c :: cs => if c = l then stripLit ls cs else none

/-- Drop one optional occurrence of a character (the `-?` and ` ?` parts of
the `reTmpl` pattern). -/
def dropOpt (x : Char) : List Char → List Char
  | [] => []
  | c :: cs => if c = x then cs else c :: cs

/-- Read the quoted template name: characters other than parentheses and
space up to the closing quote, modelling the capture group
`(?P<Name>[^() ]*)` of `reTmpl` (lines 48-52). -/
def readName : List Char → Option (List Char × List Char)
  | [] => none
  | c :: cs =>
    if c = '"' then some ([], cs)
    else if c = '(' ∨ c = ')' ∨ c = ' ' then none
    else
      match readName cs with
      | none => none
      | some (nm, rest) => some (c :: nm, rest)

/-- Find the directive's closing braces before the end of the line (the `.`
of the pattern does not cross a newline). -/
def findClose : List Char → Option (List Char)
  | [] => none
  | c :: cs =>
    if c = '\n' then none
    else
      match c, cs with
      | '\x7d', '\x7d' :: rest => some rest
      | _, _ => findClose cs

/-- Try to match one inclusion directive at the head of the stream: one
match of `reTmpl` (opening braces, optional trim marker and space, the
literal keyword, the quoted name, and a closing-brace pair on the same
line; the greediness of the trailing-argument part is simplified to the
first closing pair, which agrees with the pattern on the
one-directive-per-line contents used throughout). -/
def matchDirective (cs : List Char) : Option String :=
  match cs with
  | '\x7b' :: '\x7b' :: rest =>
    let rest := dropOpt '-' rest
    let rest := dropOpt ' ' rest
    match stripLit ("template \"".data) rest with
    | none => none
    | some rest =>
      match readName rest with
      | none => none
      | some (nm, rest) =>
        match findClose rest with
        | none => none
        | some _ => some (String.mk nm)
  | _ => none

/-- All directive names found in the content in text order, duplicates
kept: model of `reTmpl.FindAllStringSubmatch(content, -1)` restricted to
the captured name of each match. -/
def scanNames : List Char → List String
  | [] => []
  | c :: cs =>
    match matchDirective (c :: cs) with
    | some nm => nm :: scanNames cs
    | none => scanNames cs

/-- Reference extraction applied to a whole file content. -/
def findTemplateNames (content : String) : List String :=
  scanNames content.data

/-- Body of the `curTmplSet` loop (lines 122-129): insert a name unless it
is already present. -/
def insertName (seen : List String) (n : String) : List String :=
  if n ∈ seen then seen else seen ++ [n]

/-- The deduplicated reference set built from the match list by the
`curTmplSet` loop (insertion order kept; only membership is used later). -/
def buildTmplSet (matchList : List String) : List String :=
  matchList.foldl insertName []

/-- Result list of a recursive call; a read error inside the recursion is
discarded (`fList, _ := getAllTmplName(...)`, line 135). -/
def okE : Except Unit (List String) → List String
  | Except.ok l => l
  | Except.error _ => []

/-- Result list of an optional recursive outcome. -/
def okList : Option (Except Unit (List String)) → List String
  | some res => okE res
  | none => []

/-- The candidate loop of `getAllTmplName` (lines 131-140): a candidate is
appended exactly when its base filename is in the current reference set,
immediately followed by its recursively resolved sub-list.  `none`
propagates fuel exhaustion of a recursive call. -/
def loopFn (rec : String → Option (Except Unit (List String)))
    (S : List String) : List String → Option (List String)
  | [] => some []
  | t :: rest =>
    if baseName t ∈ S then
      (rec t).bind (fun res =>
        (loopFn rec S rest).map (fun tail => t :: (okE res ++ tail)))
    else loopFn rec S rest

/-- One unfolding of `getAllTmplName` (lines 106-142) with the recursive
occurrences given by `rec`: read the file (read failure is the only error),
return the empty list when no directive matches, otherwise run the
candidate loop on the deduplicated reference set. -/
def resolveStep (fs : FS) (allTmpl : List String)
    (rec : String → Option (Except Unit (List String)))
    (filePath : String) : Option (Except Unit (List String)) :=
  match readFile fs filePath with
  | none => some (Except.error ())
  | some content =>
    if findTemplateNames content = [] then some (Except.ok [])
    else (loopFn rec (buildTmplSet (findTemplateNames content)) allTmpl).map Except.ok

/-- Fuel-indexed `getAllTmplName`: `none` means the recursion of the Go
function did not return within the given depth (the Go original has no
cycle guard, so this is how its divergence is observed in the model). -/
def getAllTmplName (fs : FS) (allTmpl : List String) :
    Nat → String → Option (Except Unit (List String))
  | 0 => fun _ => none
  | n + 1 => resolveStep fs allTmpl (getAllTmplName fs allTmpl n)

/-- Line 180: the page's own path is appended last to the resolver output
(`filterTmpl = append(filterTmpl, curSrc)`). -/
def pageAppend (p : String) : Except Unit (List String) → Except Unit (List String)
  | Except.error e => Except.error e
  | Except.ok l => Except.ok (l ++ [p])

/-- The resolved bundle handed to the template compiler. -/
def resolveBundle (fs : FS) (allTmpl : List String) (n : Nat) (pagePath : String) :
    Option (Except Unit (List String)) :=
  (getAllTmplName fs allTmpl n pagePath).map (pageAppend pagePath)

/-- The deduplicated reference set of a file (empty when the file cannot be
read). -/
def refNames (fs : FS) (fp : String) : List String :=
  match readFile fs fp with
  | none => []
  | some content => buildTmplSet (findTemplateNames content)

/-- Direct reference step of the resolver: while resolving `f`, candidate
`c` is selected because its base filename is in `f`'s reference set. -/
def stepR (fs : FS) (T : List String) (f c : String) : Prop :=
  c ∈ T ∧ baseName c ∈ refNames fs f

/-- A Go `any` value as seen by `Dict`: a string, or some non-string
value. -/
inductive GoVal where
  | str (s : String)
  | other (n : Nat)
deriving DecidableEq

/-- Outcome of `Dict`: a returned map, a returned error, or a runtime
out-of-range slice access (a Go panic, not an error return). -/
inductive DictResult where
  | ok (m : List (String × GoVal))
  | err (msg : String)
  | indexOutOfRange
deriving DecidableEq

/-- Go map assignment `dict[k] = v` on an association-list model of the
map (existing key overwritten). -/
def insertKV : List (String × GoVal) → String → GoVal → List (String × GoVal)
  | [], k, v => [(k, v)]
  | (k', v') :: rest, k, v =>
    if k' = k then (k, v) :: rest else (k', v') :: insertKV rest k v

/-- The do-while loop of `Dict` (lines 60-71): `values[0]` and `values[1]`
are read before any emptiness check, so fewer than two remaining elements
is an out-of-range access. -/
def dictLoop : List GoVal → List (String × GoVal) → DictResult
  | [], _ => DictResult.indexOutOfRange
  | [_], _ => DictResult.indexOutOfRange
  | k :: v :: rest, acc =>
    match k with
    | GoVal.str s =>
      if rest = [] then DictResult.ok (insertKV acc s v)
      else dictLoop rest (insertKV acc s v)
    | GoVal.other _ => DictResult.err "type must equal to \"string\""

/-- `Dict` (lines 54-73). -/
def Dict (values : List GoVal) : DictResult :=
  if values.length % 2 ≠ 0 then DictResult.err "parameters must be even"
  else dictLoop values []

/-- Consecutive key/value pairs of the argument list. -/
def pairsOf : List GoVal → List (GoVal × GoVal)
  | k :: v :: rest => (k, v) :: pairsOf rest
  | _ => []

/-- The string carried by a key (used only on string keys). -/
def keyStr : GoVal → String
  | GoVal.str s => s
  | GoVal.other _ => ""

/-- Whether a key passes the `reflect.String` kind check. -/
def isStrKey : GoVal → Bool
  | GoVal.str _ => true
  | GoVal.other _ => false

/-- The mapping built from consecutive pairs (left to right, later keys
overwriting). -/
def buildMap (ps : List (GoVal × GoVal)) : List (String × GoVal) :=
  ps.foldl (fun acc p => insertKV acc (keyStr p.1) p.2) []

/-- Outcome of the routing switch: render a source file, or fall through to
the static-file path. -/
inductive RouteResult where
  | render (src : String)
  | static
deriving DecidableEq

/-- Join components with slashes (character-level `String.intercalate "/"`). -/
def joinComps : List String → String
  | [] => ""
  | [s] => s
  | s :: rest => s ++ "/" ++ joinComps rest

/-- Go `path.Clean` restricted to the shapes the router produces: empty and
dot components are dropped; `..` resolution and rooted paths are not
exercised here. -/
def cleanPath (p : String) : String :=
  joinComps ((pathComps p).filter (fun s => !(s == "") && !(s == ".")))

/-- Go `path.Join` of two relative segments. -/
def joinPath (a b : String) : String :=
  cleanPath (a ++ "/" ++ b)

/-- Helper scan of `pathExt` on the reversed character list. -/
def extAux : List Char → List Char → String
  | [], _ => ""
  | c :: rest, acc =>
    if c = '/' then ""
    else if c = '.' then String.mk ('.' :: acc)
    else extAux rest (c :: acc)

/-- Go `filepath.Ext`: the suffix starting at the final dot of the final
component; empty when that component has no dot. -/
def pathExt (p : String) : String :=
  extAux p.data.reverse []

/-- Drop the last `n` characters of a string (the byte slice
`curSrc[:len(curSrc)-4]`; the sliced tail is ASCII, so characters and bytes
agree). -/
def dropRightN (s : String) (n : Nat) : String :=
  String.mk ((s.data.reverse.drop n).reverse)

/-- The URL-to-source mapping of the catch-all handler (lines 164-173),
including the `fallthrough` chain of the extension switch. -/
def routeTemplate (urlPath : String) : RouteResult :=
  let c0 := joinPath "./src" urlPath
  let e := pathExt urlPath
  if e = "" ∨ e = ".html" ∨ e = ".gohtml" then
    let c1 := if e = "" then joinPath c0 "index.html" else c0
    let c2 := if e = "" ∨ e = ".html" then (dropRightN c1 4) ++ "gohtml" else c1
    RouteResult.render c2
  else RouteResult.static

/-- An HTTP response as far as the claims observe it: status code and body
bytes. -/
structure HResponse where
  status : Nat
  body : String
deriving DecidableEq

/-- Go `ParseFiles`/`ParseFS` first reads every bundle file; a read failure
aborts parsing with an error. -/
def readAllFiles (fs : FS) : List String → Except String (List String)
  | [] => Except.ok []
  | p :: rest =>
    match readFile fs p with
    | none => Except.error "read failure"
    | some c =>
      match readAllFiles fs rest with
      | Except.error e => Except.error e
      | Except.ok cs => Except.ok (c :: cs)

/-- Template compilation: read every file of the bundle, then hand the
contents to the parse oracle (the template engine proper is external). -/
def parseFiles (fs : FS) (oracle : List String → Except String Unit)
    (paths : List String) : Except String Unit :=
  match readAllFiles fs paths with
  | Except.error e => Except.error e
  | Except.ok cs => oracle cs

/-- The template branch of the catch-all handler (lines 173-197): resolve;
on resolution error status 400 with no body; append the page path; parse;
on parse error status 400 with the error text as body; otherwise status 200
with the rendered output.  `none` models fuel exhaustion of the
resolver. -/
def handleTemplate (fs : FS) (T : List String)
    (oracle : List String → Except String Unit) (render : String)
    (n : Nat) (curSrc : String) : Option HResponse :=
  match getAllTmplName fs T n curSrc with
  | none => none
  | some (Except.error _) => some ⟨400, ""⟩
  | some (Except.ok l) =>
    match parseFiles fs oracle (l ++ [curSrc]) with
    | Except.error e => some ⟨400, e⟩
    | Except.ok _ => some ⟨200, render⟩

/-- An inclusion directive as it appears in the repository's templates. -/
def directive (nm : String) : String :=
  "\x7b\x7btemplate \"" ++ nm ++ "\" .\x7d\x7d"

/-- Cyclic instance: two fragments that reference each other by base
name. -/
def cyA : String := "tmpl/a.gohtml"

/-- Second participant of the cyclic instance. -/
def cyB : String := "tmpl/b.gohtml"

/-- File store of the cyclic instance. -/
def fsCyc : FS := [(cyA, directive "b.gohtml"), (cyB, directive "a.gohtml")]

/-- Candidate list of the cyclic instance. -/
def TCyc : List String := [cyA, cyB]

/-- Acyclic diamond instance: the page references both fragments and the
first fragment references the second again. -/
def fsD : FS :=
  [("src/p.gohtml", directive "a.gohtml" ++ "\n" ++ directive "b.gohtml"),
   ("tmpl/a.gohtml", directive "b.gohtml"),
   ("tmpl/b.gohtml", "no refs")]

/-- Candidate list of the diamond instance. -/
def TD : List String := ["tmpl/a.gohtml", "tmpl/b.gohtml"]

/-- Small acyclic instance used by witnesses: one page, one fragment. -/
def fsW : FS :=
  [("src/a.gohtml", directive "h.gohtml"), ("tmpl/h.gohtml", "hello")]

/-- Candidate list of the witness instance. -/
def TW : List String := ["tmpl/h.gohtml"]

/-- A content with the same directive twice, used by the C6 witness. -/
def dupContent : String := directive "x" ++ "\n" ++ directive "x"

/-- Parse oracle that always succeeds, for the C4 witness. -/
def oracleOk : List String → Except String Unit := fun _ => Except.ok ()

/-- Parse oracle that always fails, for the C4 witness. -/
def oracleBad : List String → Except String Unit := fun _ => Except.error "boom"

/-- Unfolding of the fuel-indexed resolver at a successor. -/
lemma run_succ_eq (fs : FS) (T : List String) (n : Nat) (fp : String) :
    getAllTmplName fs T (n + 1) fp = resolveStep fs T (getAllTmplName fs T n) fp := rfl

/-- Exhausted fuel. -/
lemma run_zero (fs : FS) (T : List String) (fp : String) :
    getAllTmplName fs T 0 fp = none := rfl

/-- A converged candidate loop produces exactly the candidates whose base
filename is in the reference set, each immediately followed by its
recursively resolved sub-list. -/
lemma loopFn_eq_flatMap (rec : String → Option (Except Unit (List String))) (S : List String) :
    ∀ rest l, loopFn rec S rest = some l →
      l = (rest.filter (fun t => decide (baseName t ∈ S))).flatMap
            (fun t => t :: okList (rec t)) := by
  intro rest
  induction rest with
  | nil =>
    intro l h
    simp only [loopFn, Option.some.injEq] at h
    simp [h.symm]
  | cons t rest ih =>
    intro l h
    simp only [loopFn] at h
    by_cases hb : baseName t ∈ S
    · rw [if_pos hb] at h
      rcases hrec : rec t with _ | res
      · rw [hrec] at h; simp at h
      · rw [hrec, Option.some_bind] at h
        rcases Option.map_eq_some'.mp h with ⟨tail, htail, hl⟩
        rw [List.filter_cons_of_pos (by simpa using hb), List.flatMap_cons, ← ih tail htail,
          ← hl, hrec]
        simp [okList]
    · rw [if_neg hb] at h
      rw [List.filter_cons_of_neg (by simpa using hb)]
      exact ih l h

/-- A loop in which no candidate matches returns the empty list. -/
lemma loopFn_no_match (rec : String → Option (Except Unit (List String))) (S : List String) :
    ∀ rest, (∀ t ∈ rest, ¬ baseName t ∈ S) → loopFn rec S rest = some [] := by
  intro rest
  induction rest with
  | nil => intro _; rfl
  | cons t rest ih =>
    intro h
    simp only [loopFn]
    rw [if_neg (h t (List.mem_cons_self t rest))]
    exact ih fun u hu => h u (List.mem_cons_of_mem t hu)

/-- The loop converges when every matching recursive call converges. -/
lemma loopFn_total (rec : String → Option (Except Unit (List String))) (S : List String) :
    ∀ rest, (∀ t ∈ rest, baseName t ∈ S → ¬ rec t = none) →
      ∃ l, loopFn rec S rest = some l := by
  intro rest
  induction rest with
  | nil => exact fun _ => ⟨[], rfl⟩
  | cons t rest ih =>
    intro h
    simp only [loopFn]
    by_cases hb : baseName t ∈ S
    · rw [if_pos hb]
      rcases Option.ne_none_iff_exists'.mp (h t (List.mem_cons_self t rest) hb) with ⟨res, hres⟩
      rcases ih (fun u hu hbu => h u (List.mem_cons_of_mem t hu) hbu) with ⟨tail, htail⟩
      rw [hres, Option.some_bind, htail]
      exact ⟨t :: (okE res ++ tail), rfl⟩
    · rw [if_neg hb]
      exact ih fun u hu hbu => h u (List.mem_cons_of_mem t hu) hbu

/-- In a converged loop, every matching candidate's recursive call
converged as well. -/
lemma loopFn_sub_some (rec : String → Option (Except Unit (List String))) (S : List String) :
    ∀ rest l, loopFn rec S rest = some l →
      ∀ t ∈ rest, baseName t ∈ S → ∃ r, rec t = some r := by
  intro rest
  induction rest with
  | nil => intro l _ t ht; cases ht
  | cons u rest ih =>
    intro l h t ht hb
    simp only [loopFn] at h
    by_cases hu : baseName u ∈ S
    · rw [if_pos hu] at h
      rcases hrec : rec u with _ | res
      · rw [hrec] at h; simp at h
      · rcases List.mem_cons.mp ht with rfl | ht'
        · exact ⟨res, hrec⟩
        · rw [hrec, Option.some_bind] at h
          rcases Option.map_eq_some'.mp h with ⟨tail, htail, _⟩
          exact ih tail htail t ht' hb
    · rw [if_neg hu] at h
      rcases List.mem_cons.mp ht with rfl | ht'
      · exact absurd hb hu
      · exact ih l h t ht' hb

/-- Loop convergence is preserved when the recursive calls are refined to a
function that agrees on every converged input. -/
lemma loopFn_mono (rec rec' : String → Option (Except Unit (List String)))
    (hrec : ∀ q s, rec q = some s → rec' q = some s) (S : List String) :
    ∀ rest l, loopFn rec S rest = some l → loopFn rec' S rest = some l := by
  intro rest
  induction rest with
  | nil => intro l h; exact h
  | cons t rest ih =>
    intro l h
    simp only [loopFn] at h ⊢
    by_cases hb : baseName t ∈ S
    · rw [if_pos hb] at h ⊢
      rcases hrt : rec t with _ | res
      · rw [hrt] at h; simp at h
      · rw [hrt, Option.some_bind] at h
        rcases Option.map_eq_some'.mp h with ⟨tail, htail, hl⟩
        rw [hrec t res hrt, Option.some_bind, ih tail htail, Option.map_some']
        exact congrArg some hl
    · rw [if_neg hb] at h ⊢
      exact ih l h

/-- One resolver step is preserved under refinement of the recursive
calls. -/
lemma resolveStep_mono (fs : FS) (T : List String)
    (rec rec' : String → Option (Except Unit (List String)))
    (hrec : ∀ q s, rec q = some s → rec' q = some s) (fp : String)
    (r : Except Unit (List String)) (h : resolveStep fs T rec fp = some r) :
    resolveStep fs T rec' fp = some r := by
  unfold resolveStep at h ⊢
  cases hread : readFile fs fp with
  | none => rw [hread] at h; exact h
  | some content =>
    rw [hread] at h
    have h' : (if findTemplateNames content = [] then some (Except.ok [])
        else Option.map Except.ok (loopFn rec (buildTmplSet (findTemplateNames content)) T)) =
        some r := h
    show (if findTemplateNames content = [] then some (Except.ok [])
        else Option.map Except.ok (loopFn rec' (buildTmplSet (findTemplateNames content)) T)) =
        some r
    by_cases hnm : findTemplateNames content = []
    · rw [if_pos hnm] at h' ⊢; exact h'
    · rw [if_neg hnm] at h' ⊢
      rcases Option.map_eq_some'.mp h' with ⟨l, hl, hr⟩
      rw [loopFn_mono rec rec' hrec _ _ l hl, Option.map_some']
      exact congrArg some hr

/-- One more unit of fuel never changes a converged resolver run. -/
lemma fuel_mono_succ (fs : FS) (T : List String) : ∀ n fp r,
    getAllTmplName fs T n fp = some r → getAllTmplName fs T (n + 1) fp = some r := by
  intro n
  induction n with
  | zero => intro fp r h; simp [run_zero] at h
  | succ n ih =>
    intro fp r h
    rw [run_succ_eq] at h ⊢
    exact resolveStep_mono fs T _ _ (fun q s hq => ih q s hq) fp r h

/-- Additional fuel never changes a converged resolver run. -/
lemma fuel_mono (fs : FS) (T : List String) : ∀ n m fp r, n ≤ m →
    getAllTmplName fs T n fp = some r → getAllTmplName fs T m fp = some r := by
  intro n m fp r hnm h
  induction m with
  | zero =>
    have h0 := Nat.le_zero.mp hnm
    subst h0
    exact h
  | succ m ih =>
    rcases Nat.eq_or_lt_of_le hnm with rfl | hlt
    · exact h
    · exact fuel_mono_succ fs T m fp r (ih (Nat.lt_succ_iff.mp hlt))

/-- The only error the resolver returns is a failure to read the requested
file itself. -/
lemma err_read (fs : FS) (T : List String) : ∀ n fp e,
    getAllTmplName fs T n fp = some (Except.error e) → readFile fs fp = none := by
  intro n fp e h
  cases n with
  | zero => simp [run_zero] at h
  | succ n =>
    rw [run_succ_eq] at h
    unfold resolveStep at h
    cases hread : readFile fs fp with
    | none => rfl
    | some content =>
      rw [hread] at h
      have h' : (if findTemplateNames content = [] then some (Except.ok [])
          else Option.map Except.ok
            (loopFn (getAllTmplName fs T n) (buildTmplSet (findTemplateNames content)) T)) =
          some (Except.error e) := h
      by_cases hnm : findTemplateNames content = []
      · rw [if_pos hnm] at h'
        simp at h'
      · rw [if_neg hnm] at h'
        rcases Option.map_eq_some'.mp h' with ⟨l, _, hl⟩
        simp at hl

/-- Anything reachable from `x` by reference steps is `x` itself or a
candidate. -/
lemma reach_mem (fs : FS) (T : List String) : ∀ x y,
    Relation.ReflTransGen (stepR fs T) x y → y = x ∨ y ∈ T := by
  intro x y h
  induction h with
  | refl => exact Or.inl rfl
  | tail _ hstep _ => exact Or.inr hstep.1

/-- Any participant of a reference cycle is a candidate. -/
lemma cyc_mem (fs : FS) (T : List String) : ∀ x,
    Relation.TransGen (stepR fs T) x x → x ∈ T := by
  intro x h
  rcases Relation.TransGen.tail'_iff.mp h with ⟨d, _, hd⟩
  exact hd.1

/-- A converged run's output consists exactly of the files reachable in at
least one reference step, provided every candidate file is readable. -/
lemma run_mem (fs : FS) (T : List String)
    (hT : ∀ t ∈ T, ¬ readFile fs t = none) : ∀ n fp l,
    getAllTmplName fs T n fp = some (Except.ok l) →
    ∀ x, x ∈ l ↔ ∃ c, stepR fs T fp c ∧ Relation.ReflTransGen (stepR fs T) c x := by
  intro n
  induction n with
  | zero => intro fp l h; simp [run_zero] at h
  | succ n ih =>
    intro fp l h x
    rw [run_succ_eq] at h
    unfold resolveStep at h
    cases hread : readFile fs fp with
    | none => rw [hread] at h; simp at h
    | some content =>
      rw [hread] at h
      have hS : refNames fs fp = buildTmplSet (findTemplateNames content) := by
        unfold refNames; rw [hread]
      have h' : (if findTemplateNames content = [] then some (Except.ok [])
          else Option.map Except.ok
            (loopFn (getAllTmplName fs T n) (buildTmplSet (findTemplateNames content)) T)) =
          some (Except.ok l) := h
      by_cases hnm : findTemplateNames content = []
      · rw [if_pos hnm] at h'
        simp only [Option.some.injEq, Except.ok.injEq] at h'
        subst h'
        refine ⟨fun hx => absurd hx (List.not_mem_nil x), ?_⟩
        rintro ⟨c, ⟨hcT, hcb⟩, -⟩
        rw [hS, hnm] at hcb
        exact absurd hcb (List.not_mem_nil _)
      · rw [if_neg hnm] at h'
        rcases Option.map_eq_some'.mp h' with ⟨l', hloop, heq⟩
        have hl' : l' = l := by
          simpa using heq
        subst hl'
        have hflat := loopFn_eq_flatMap _ _ _ _ hloop
        rw [hflat, List.mem_flatMap]
        constructor
        · rintro ⟨a, ha, hx⟩
          rcases List.mem_filter.mp ha with ⟨haT, hab⟩
          have hab' : baseName a ∈ buildTmplSet (findTemplateNames content) := by
            simpa using hab
          have stepa : stepR fs T fp a := ⟨haT, by rw [hS]; exact hab'⟩
          rcases List.mem_cons.mp hx with rfl | hx'
          · exact ⟨_, stepa, Relation.ReflTransGen.refl⟩
          · rcases loopFn_sub_some _ _ T _ hloop a haT hab' with ⟨r, hr⟩
            cases r with
            | error e =>
              exact absurd (err_read fs T n a e hr) (hT a haT)
            | ok la =>
              rw [hr] at hx'
              have hxla : x ∈ la := hx'
              rcases (ih a la hr x).mp hxla with ⟨c', hstep', hreach'⟩
              exact ⟨a, stepa, Relation.ReflTransGen.head hstep' hreach'⟩
        · rintro ⟨c, ⟨hcT, hcb⟩, hreach⟩
          rw [hS] at hcb
          have hcfil : c ∈ T.filter (fun t => decide (baseName t ∈
              buildTmplSet (findTemplateNames content))) :=
            List.mem_filter.mpr ⟨hcT, by simpa using hcb⟩
          refine ⟨c, hcfil, ?_⟩
          rcases Relation.ReflTransGen.cases_head hreach with rfl | ⟨d, hd, hdx⟩
          · exact List.mem_cons_self c _
          · rcases loopFn_sub_some _ _ T _ hloop c hcT hcb with ⟨r, hr⟩
            cases r with
            | error e =>
              exact absurd (err_read fs T n c e hr) (hT c hcT)
            | ok lc =>
              have hxlc : x ∈ lc := (ih c lc hr x).mpr ⟨d, hd, hdx⟩
              rw [hr]
              exact List.mem_cons_of_mem c hxlc

/-- Termination of the resolver on acyclic reference closures: with fuel
one more than the number of candidates reachable in at least one step, the
run converges. -/
lemma run_total (fs : FS) (T : List String)
    (hT : ∀ t ∈ T, ¬ readFile fs t = none) : ∀ k fp,
    ¬ readFile fs fp = none →
    (∀ c, Relation.ReflTransGen (stepR fs T) fp c → ¬ Relation.TransGen (stepR fs T) c c) →
    {c | c ∈ T ∧ Relation.TransGen (stepR fs T) fp c}.ncard ≤ k →
    ¬ getAllTmplName fs T (k + 1) fp = none := by
  intro k
  induction k with
  | zero =>
    intro fp hfp hacyc hcard
    rcases Option.ne_none_iff_exists'.mp hfp with ⟨content, hc⟩
    rw [run_succ_eq]
    unfold resolveStep
    rw [hc]
    show ¬ (if findTemplateNames content = [] then some (Except.ok [])
        else Option.map Except.ok
          (loopFn (getAllTmplName fs T 0) (buildTmplSet (findTemplateNames content)) T)) = none
    by_cases hnm : findTemplateNames content = []
    · rw [if_pos hnm]; simp
    · rw [if_neg hnm]
      have hfin : ({c | c ∈ T ∧ Relation.TransGen (stepR fs T) fp c} : Set String).Finite :=
        (List.finite_toSet T).subset (fun c hc => hc.1)
      have hempty : ({c | c ∈ T ∧ Relation.TransGen (stepR fs T) fp c} : Set String) = ∅ :=
        (Set.ncard_eq_zero hfin).mp (Nat.le_zero.mp hcard)
      have hno : ∀ t ∈ T, ¬ baseName t ∈ buildTmplSet (findTemplateNames content) := by
        intro t ht hmem
        have hstep : stepR fs T fp t := ⟨ht, by unfold refNames; rw [hc]; exact hmem⟩
        have htm : t ∈ ({c | c ∈ T ∧ Relation.TransGen (stepR fs T) fp c} : Set String) :=
          ⟨ht, Relation.TransGen.single hstep⟩
        rw [hempty] at htm
        exact htm
      rw [loopFn_no_match _ _ T hno]
      simp
  | succ k ih =>
    intro fp hfp hacyc hcard
    rcases Option.ne_none_iff_exists'.mp hfp with ⟨content, hc⟩
    rw [run_succ_eq]
    unfold resolveStep
    rw [hc]
    show ¬ (if findTemplateNames content = [] then some (Except.ok [])
        else Option.map Except.ok
          (loopFn (getAllTmplName fs T (k + 1)) (buildTmplSet (findTemplateNames content)) T)) =
        none
    by_cases hnm : findTemplateNames content = []
    · rw [if_pos hnm]; simp
    · rw [if_neg hnm]
      have hrecs : ∀ t ∈ T, baseName t ∈ buildTmplSet (findTemplateNames content) →
          ¬ getAllTmplName fs T (k + 1) t = none := by
        intro t ht hb
        have hstep : stepR fs T fp t := ⟨ht, by unfold refNames; rw [hc]; exact hb⟩
        have hreacht : Relation.ReflTransGen (stepR fs T) fp t :=
          Relation.ReflTransGen.single hstep
        have hfin : ({c | c ∈ T ∧ Relation.TransGen (stepR fs T) fp c} : Set String).Finite :=
          (List.finite_toSet T).subset (fun c hc => hc.1)
        have hsub : ({c | c ∈ T ∧ Relation.TransGen (stepR fs T) t c} : Set String) ⊆
            {c | c ∈ T ∧ Relation.TransGen (stepR fs T) fp c} := by
          rintro y ⟨hyT, hy⟩
          exact ⟨hyT, Relation.TransGen.head hstep hy⟩
        have htmem : t ∈ ({c | c ∈ T ∧ Relation.TransGen (stepR fs T) fp c} : Set String) :=
          ⟨ht, Relation.TransGen.single hstep⟩
        have htnot : t ∉ ({c | c ∈ T ∧ Relation.TransGen (stepR fs T) t c} : Set String) := by
          rintro ⟨-, hcyc⟩
          exact hacyc t hreacht hcyc
        have hss : ({c | c ∈ T ∧ Relation.TransGen (stepR fs T) t c} : Set String) ⊂
            {c | c ∈ T ∧ Relation.TransGen (stepR fs T) fp c} :=
          (Set.ssubset_iff_of_subset hsub).mpr ⟨t, htmem, htnot⟩
        have hlt := Set.ncard_lt_ncard hss hfin
        have hcard' : ({c | c ∈ T ∧ Relation.TransGen (stepR fs T) t c} : Set String).ncard ≤ k := by
          omega
        exact ih t (hT t ht) (fun c hrc => hacyc c (hreacht.trans hrc)) hcard'
      rcases loopFn_total _ _ T hrecs with ⟨l, hl⟩
      rw [hl]
      simp

/-- One resolver step on the first cycle participant is stuck when the
recursion on the second participant is stuck. -/
lemma cyc_stepA (rec : String → Option (Except Unit (List String)))
    (h : rec cyB = none) : resolveStep fsCyc TCyc rec cyA = none := by
  have e : resolveStep fsCyc TCyc rec cyA =
      ((rec cyB).bind (fun res => some (cyB :: (okE res ++ [])))).map Except.ok := rfl
  rw [e, h]
  rfl

/-- One resolver step on the second cycle participant is stuck when the
recursion on the first participant is stuck. -/
lemma cyc_stepB (rec : String → Option (Except Unit (List String)))
    (h : rec cyA = none) : resolveStep fsCyc TCyc rec cyB = none := by
  have e : resolveStep fsCyc TCyc rec cyB =
      ((rec cyA).bind (fun res =>
        (loopFn rec (buildTmplSet (findTemplateNames (directive "a.gohtml"))) [cyB]).map
          (fun tail => cyA :: (okE res ++ tail)))).map Except.ok := rfl
  rw [e, h]
  rfl

/-- On the two-file reference cycle, neither participant's resolution ever
returns, whatever the recursion depth. -/
lemma cyc_pair : ∀ n, getAllTmplName fsCyc TCyc n cyA = none ∧
    getAllTmplName fsCyc TCyc n cyB = none := by
  intro n
  induction n with
  | zero => exact ⟨rfl, rfl⟩
  | succ n ih =>
    refine ⟨?_, ?_⟩
    · rw [run_succ_eq]
      exact cyc_stepA _ ih.2
    · rw [run_succ_eq]
      exact cyc_stepB _ ih.1

/-- C1: for a page file participating in a reference cycle (`tmpl/a.gohtml`
includes `b.gohtml` by base name and `tmpl/b.gohtml` includes `a.gohtml`),
`getAllTmplName` does not terminate: for every recursion depth the
fuel-indexed model fails to return, so no bundle containing each of A and B
exactly once is ever produced.  This contradicts the claimed termination
and exhibits the cycle-protection gap. -/
theorem c1_cycle_divergence : ∀ n, getAllTmplName fsCyc TCyc n cyA = none :=
  fun n => (cyc_pair n).1

/-- The diamond instance has no reference cycle reachable from its page. -/
lemma fsD_acyclic : ∀ c, Relation.ReflTransGen (stepR fsD TD) "src/p.gohtml" c →
    ¬ Relation.TransGen (stepR fsD TD) c c := by
  intro c _ hcyc
  have hcT : c ∈ TD := cyc_mem fsD TD c hcyc
  have hnostepb : ∀ y, ¬ stepR fsD TD "tmpl/b.gohtml" y := by
    rintro y ⟨-, hb⟩
    have hrn : refNames fsD "tmpl/b.gohtml" = [] := rfl
    rw [hrn] at hb
    exact absurd hb (List.not_mem_nil _)
  rcases List.mem_cons.mp hcT with rfl | hcT'
  · rcases Relation.TransGen.head'_iff.mp hcyc with ⟨d, hd, hdc⟩
    rcases hd with ⟨hdT, hdb⟩
    have hra : refNames fsD "tmpl/a.gohtml" = ["b.gohtml"] := rfl
    rw [hra] at hdb
    rcases List.mem_cons.mp hdT with rfl | hdT'
    · exact absurd hdb (by decide)
    · have hdB : d = "tmpl/b.gohtml" := List.mem_singleton.mp hdT'
      subst hdB
      rcases Relation.ReflTransGen.cases_head hdc with heq | ⟨e, he, -⟩
      · exact absurd heq (by decide)
      · exact hnostepb e he
  · have hcB : c = "tmpl/b.gohtml" := List.mem_singleton.mp hcT'
    subst hcB
    rcases Relation.TransGen.head'_iff.mp hcyc with ⟨d, hd, -⟩
    exact hnostepb d hd

/-- C2 (counterexample): on an acyclic diamond — the page references
`a.gohtml` and `b.gohtml`, and `tmpl/a.gohtml` references `b.gohtml`
again — the resolved bundle lists `tmpl/b.gohtml` twice, refuting "each
path exactly once". -/
theorem c2_counterexample :
    resolveBundle fsD TD 5 "src/p.gohtml" =
        some (Except.ok ["tmpl/a.gohtml", "tmpl/b.gohtml", "tmpl/b.gohtml", "src/p.gohtml"])
      ∧ (∀ c, Relation.ReflTransGen (stepR fsD TD) "src/p.gohtml" c →
          ¬ Relation.TransGen (stepR fsD TD) c c)
      ∧ ¬ (["tmpl/a.gohtml", "tmpl/b.gohtml", "tmpl/b.gohtml",
            "src/p.gohtml"] : List String).Nodup :=
  ⟨rfl, fsD_acyclic, by decide⟩

/-- C2 (amended): for a page whose reference closure over the candidate
list is acyclic, with the page and every candidate readable, resolution
terminates, and the resolved bundle consists of the page file together
with exactly the transitively referenced candidate files — each present at
least once, with files referenced along several paths possibly repeated —
and the page file is the last element. -/
theorem c2_acyclic_closure (fs : FS) (T : List String) (page : String)
    (hpage : ¬ readFile fs page = none)
    (hT : ∀ t ∈ T, ¬ readFile fs t = none)
    (hacyc : ∀ c, Relation.ReflTransGen (stepR fs T) page c →
      ¬ Relation.TransGen (stepR fs T) c c) :
    ∃ n l, getAllTmplName fs T n page = some (Except.ok l)
      ∧ resolveBundle fs T n page = some (Except.ok (l ++ [page]))
      ∧ (∀ x, x ∈ l ++ [page] ↔ Relation.ReflTransGen (stepR fs T) page x)
      ∧ (l ++ [page]).getLast? = some page := by
  have hconv := run_total fs T hT
    ({c | c ∈ T ∧ Relation.TransGen (stepR fs T) page c} : Set String).ncard
    page hpage hacyc (le_refl _)
  rcases Option.ne_none_iff_exists'.mp hconv with ⟨r, hr⟩
  cases r with
  | error e => exact absurd (err_read fs T _ page e hr) hpage
  | ok l =>
    refine ⟨_, l, hr, ?_, ?_, ?_⟩
    · unfold resolveBundle
      rw [hr]
      rfl
    · intro x
      rw [List.mem_append]
      have hmem := run_mem fs T hT _ page l hr x
      constructor
      · rintro (hx | hx)
        · rcases hmem.mp hx with ⟨c, hstep, hreach⟩
          exact Relation.ReflTransGen.head hstep hreach
        · have : x = page := List.mem_singleton.mp hx
          subst this
          exact Relation.ReflTransGen.refl
      · intro hreach
        rcases Relation.ReflTransGen.cases_head hreach with heq | ⟨c, hc, hcx⟩
        · right
          rw [← heq]
          exact List.mem_singleton_self page
        · left
          exact hmem.mpr ⟨c, hc, hcx⟩
    · exact List.getLast?_concat l

/-- C2 (witness): the amended closure theorem applied to the concrete
acyclic instance with one page and one fragment. -/
theorem c2_closure_witness :
    ∃ n l, getAllTmplName fsW TW n "src/a.gohtml" = some (Except.ok l)
      ∧ resolveBundle fsW TW n "src/a.gohtml" = some (Except.ok (l ++ ["src/a.gohtml"]))
      ∧ (∀ x, x ∈ l ++ ["src/a.gohtml"] ↔
          Relation.ReflTransGen (stepR fsW TW) "src/a.gohtml" x)
      ∧ (l ++ ["src/a.gohtml"]).getLast? = some "src/a.gohtml" := by
  refine c2_acyclic_closure fsW TW "src/a.gohtml" (by decide) (by decide) ?_
  intro c _ hcyc
  have hcT : c ∈ TW := cyc_mem fsW TW c hcyc
  have hcH : c = "tmpl/h.gohtml" := List.mem_singleton.mp hcT
  subst hcH
  rcases Relation.TransGen.head'_iff.mp hcyc with ⟨d, hd, -⟩
  rcases hd with ⟨-, hdb⟩
  have hrn : refNames fsW "tmpl/h.gohtml" = [] := rfl
  rw [hrn] at hdb
  exact absurd hdb (List.not_mem_nil _)

/-- C3 (counterexample): a successfully resolved bundle in which one path
appears twice, refuting the "no path appears twice" part of the claimed
invariant (the other parts hold, see the amended theorem). -/
theorem c3_counterexample :
    resolveBundle fsD TD 5 "src/p.gohtml" =
        some (Except.ok ["tmpl/a.gohtml", "tmpl/b.gohtml", "tmpl/b.gohtml", "src/p.gohtml"])
      ∧ (["tmpl/a.gohtml", "tmpl/b.gohtml", "tmpl/b.gohtml",
          "src/p.gohtml"] : List String).count "tmpl/b.gohtml" = 2 :=
  ⟨rfl, by decide⟩

/-- C3 (amended): every successfully resolved bundle is non-empty and has
the requested page's own file path as its final element; a path may,
however, appear more than once. -/
theorem c3_bundle_invariant (fs : FS) (T : List String) (n : Nat) (p : String)
    (r : List String) (h : resolveBundle fs T n p = some (Except.ok r)) :
    ¬ r = [] ∧ r.getLast? = some p := by
  unfold resolveBundle at h
  rcases Option.map_eq_some'.mp h with ⟨a, ha, hr⟩
  cases a with
  | error e => simp [pageAppend] at hr
  | ok l =>
    have hlp : l ++ [p] = r := by simpa [pageAppend] using hr
    subst hlp
    exact ⟨by simp, List.getLast?_concat l⟩

/-- C3 (witness): the amended invariant applied to the concrete acyclic
instance. -/
theorem c3_bundle_witness :
    ¬ (["tmpl/h.gohtml", "src/a.gohtml"] : List String) = []
      ∧ (["tmpl/h.gohtml", "src/a.gohtml"] : List String).getLast? = some "src/a.gohtml" :=
  c3_bundle_invariant fsW TW 3 "src/a.gohtml" _ rfl

/-- C9: resolution is deterministic — any two converged resolutions of the
same page against the same candidate list and file store yield the same
bundle, whatever recursion depths the two runs were given. -/
theorem c9_deterministic (fs : FS) (T : List String) (p : String) (n m : Nat)
    (r r' : Except Unit (List String))
    (h1 : resolveBundle fs T n p = some r) (h2 : resolveBundle fs T m p = some r') :
    r = r' := by
  unfold resolveBundle at h1 h2
  rcases Option.map_eq_some'.mp h1 with ⟨a, ha, har⟩
  rcases Option.map_eq_some'.mp h2 with ⟨b, hb, hbr⟩
  have hab : a = b := by
    rcases Nat.le_total n m with hnm | hmn
    · have hm := fuel_mono fs T n m p a hnm ha
      exact Option.some.inj (hm.symm.trans hb)
    · have hn := fuel_mono fs T m n p b hmn hb
      exact (Option.some.inj (hn.symm.trans ha)).symm
  subst hab
  rw [← har, ← hbr]

/-- C9 (witness): two runs with different depths on the concrete instance
produce the same bundle. -/
theorem c9_deterministic_witness :
    resolveBundle fsW TW 3 "src/a.gohtml" =
        some (Except.ok ["tmpl/h.gohtml", "src/a.gohtml"])
      ∧ (Except.ok ["tmpl/h.gohtml", "src/a.gohtml"] : Except Unit (List String)) =
        Except.ok ["tmpl/h.gohtml", "src/a.gohtml"] :=
  ⟨rfl, c9_deterministic fsW TW "src/a.gohtml" 3 7 _ _ rfl rfl⟩

/-- C5: reference matching compares only the final path component: in a
converged candidate loop, a candidate contributes an entry (itself,
followed by its recursively resolved sub-list) precisely when its base
filename — never its full path — is a member of the current reference set;
and one unfolding of `getAllTmplName` runs exactly this loop on the
deduplicated reference set extracted from the page's content. -/
theorem c5_base_name_filter :
    (∀ (rec : String → Option (Except Unit (List String))) (S rest l : List String),
        loopFn rec S rest = some l →
        l = (rest.filter (fun t => decide (baseName t ∈ S))).flatMap
              (fun t => t :: okList (rec t)))
      ∧ (∀ (fs : FS) (T : List String) (n : Nat) (fp content : String),
          readFile fs fp = some content → ¬ findTemplateNames content = [] →
          getAllTmplName fs T (n + 1) fp =
            Option.map Except.ok
              (loopFn (getAllTmplName fs T n) (buildTmplSet (findTemplateNames content)) T)) := by
  constructor
  · intro rec S rest l h
    exact loopFn_eq_flatMap rec S rest l h
  · intro fs T n fp content hc hnm
    rw [run_succ_eq]
    unfold resolveStep
    rw [hc]
    show (if findTemplateNames content = [] then some (Except.ok [])
        else Option.map Except.ok
          (loopFn (getAllTmplName fs T n) (buildTmplSet (findTemplateNames content)) T)) = _
    rw [if_neg hnm]

/-- C5 (witness): the loop characterization at a concrete reference set;
the selected candidate's full path differs from the reference, only the
base filename matches. -/
theorem c5_base_name_witness :
    (["tmpl/h.gohtml"] : List String) =
      (TW.filter (fun t => decide (baseName t ∈ ["h.gohtml"]))).flatMap
        (fun t => t :: okList (getAllTmplName fsW TW 2 t)) :=
  c5_base_name_filter.1 (getAllTmplName fsW TW 2) ["h.gohtml"] TW ["tmpl/h.gohtml"] rfl

/-- Membership in an `insertName` step. -/
lemma insertName_mem (seen : List String) (n x : String) :
    x ∈ insertName seen n ↔ x ∈ seen ∨ x = n := by
  unfold insertName
  by_cases h : n ∈ seen
  · rw [if_pos h]
    constructor
    · exact Or.inl
    · rintro (hx | rfl)
      · exact hx
      · exact h
  · rw [if_neg h]
    simp

/-- `insertName` keeps the set duplicate-free. -/
lemma insertName_nodup (seen : List String) (n : String) (h : seen.Nodup) :
    (insertName seen n).Nodup := by
  unfold insertName
  by_cases hm : n ∈ seen
  · rw [if_pos hm]
    exact h
  · rw [if_neg hm]
    simp [List.nodup_append, h, hm]

/-- Membership in the folded name set. -/
lemma foldl_insertName_mem : ∀ (l seen : List String) (x : String),
    x ∈ l.foldl insertName seen ↔ x ∈ seen ∨ x ∈ l := by
  intro l
  induction l with
  | nil => intro seen x; simp
  | cons n l ih =>
    intro seen x
    rw [List.foldl_cons, ih, insertName_mem]
    constructor
    · rintro ((hx | rfl) | hx)
      · exact Or.inl hx
      · exact Or.inr (List.mem_cons_self _ _)
      · exact Or.inr (List.mem_cons_of_mem _ hx)
    · rintro (hx | hx)
      · exact Or.inl (Or.inl hx)
      · rcases List.mem_cons.mp hx with rfl | hx'
        · exact Or.inl (Or.inr rfl)
        · exact Or.inr hx'

/-- The folded name set has no duplicates. -/
lemma foldl_insertName_nodup : ∀ (l seen : List String), seen.Nodup →
    (l.foldl insertName seen).Nodup := by
  intro l
  induction l with
  | nil => intro seen h; exact h
  | cons n l ih =>
    intro seen h
    rw [List.foldl_cons]
    exact ih _ (insertName_nodup seen n h)

/-- C6: the extractor returns the set of distinct matched names: the set
built from the match list has no duplicates, its members are exactly the
names occurring in the match list (duplicate directives naming the same
template collapse to one entry), and a content with no directive match
yields the empty set; extraction is a total function with no error
outcome. -/
theorem c6_extract_dedup (content : String) :
    (buildTmplSet (findTemplateNames content)).Nodup
      ∧ (∀ nm, nm ∈ buildTmplSet (findTemplateNames content) ↔
          nm ∈ findTemplateNames content)
      ∧ (findTemplateNames content = [] → buildTmplSet (findTemplateNames content) = []) := by
  refine ⟨foldl_insertName_nodup _ _ List.nodup_nil, fun nm => ?_, fun h => by rw [h]; rfl⟩
  unfold buildTmplSet
  rw [foldl_insertName_mem]
  simp

/-- C6 (witness): a content with a duplicated directive yields the name
once; a content with no directive yields the empty set. -/
theorem c6_extract_witness :
    findTemplateNames dupContent = ["x", "x"]
      ∧ (buildTmplSet (findTemplateNames dupContent)).Nodup
      ∧ ("x" ∈ buildTmplSet (findTemplateNames dupContent) ↔
          "x" ∈ findTemplateNames dupContent)
      ∧ buildTmplSet (findTemplateNames "plain text") = [] :=
  ⟨rfl, (c6_extract_dedup dupContent).1, (c6_extract_dedup dupContent).2.1 "x",
    (c6_extract_dedup "plain text").2.2 rfl⟩

/-- The `dictLoop` run on an even-length non-empty all-string-keys list
folds the consecutive pairs into the accumulator. -/
lemma dictLoop_ok : ∀ (b : Nat) (values : List GoVal) (acc : List (String × GoVal)),
    values.length ≤ b → ¬ values = [] → values.length % 2 = 0 →
    (∀ p ∈ pairsOf values, isStrKey p.1 = true) →
    dictLoop values acc = DictResult.ok
      ((pairsOf values).foldl (fun a p => insertKV a (keyStr p.1) p.2) acc) := by
  intro b
  induction b with
  | zero =>
    intro values acc hlen hne _ _
    cases values with
    | nil => exact absurd rfl hne
    | cons k rest => simp at hlen
  | succ b ih =>
    intro values acc hlen hne heven hkeys
    cases values with
    | nil => exact absurd rfl hne
    | cons k tail =>
      cases tail with
      | nil => simp at heven
      | cons v rest =>
        have hk : isStrKey k = true := hkeys (k, v) (List.mem_cons_self _ _)
        cases k with
        | other m => simp [isStrKey] at hk
        | str s =>
          show (if rest = [] then DictResult.ok (insertKV acc s v)
              else dictLoop rest (insertKV acc s v)) = _
          by_cases hrest : rest = []
          · subst hrest
            rw [if_pos rfl]
            rfl
          · rw [if_neg hrest]
            have hlen' : rest.length ≤ b := by simp at hlen; omega
            have heven' : rest.length % 2 = 0 := by simp at heven; omega
            have hkeys' : ∀ p ∈ pairsOf rest, isStrKey p.1 = true := fun p hp =>
              hkeys p (List.mem_cons_of_mem _ hp)
            rw [ih rest (insertKV acc s v) hlen' hrest heven' hkeys']
            rfl

/-- The `dictLoop` run errors whenever some pair of an even-length list has
a non-string key. -/
lemma dictLoop_err : ∀ (b : Nat) (values : List GoVal) (acc : List (String × GoVal)),
    values.length ≤ b → values.length % 2 = 0 →
    (∃ p ∈ pairsOf values, isStrKey p.1 = false) →
    dictLoop values acc = DictResult.err "type must equal to \"string\"" := by
  intro b
  induction b with
  | zero =>
    intro values acc hlen heven hbad
    cases values with
    | nil =>
      rcases hbad with ⟨p, hp, -⟩
      exact absurd hp (List.not_mem_nil p)
    | cons k rest => simp at hlen
  | succ b ih =>
    intro values acc hlen heven hbad
    cases values with
    | nil =>
      rcases hbad with ⟨p, hp, -⟩
      exact absurd hp (List.not_mem_nil p)
    | cons k tail =>
      cases tail with
      | nil => simp at heven
      | cons v rest =>
        cases k with
        | other m => rfl
        | str s =>
          rcases hbad with ⟨p, hp, hbadp⟩
          rcases List.mem_cons.mp hp with rfl | hp'
          · simp [isStrKey] at hbadp
          · show (if rest = [] then DictResult.ok (insertKV acc s v)
                else dictLoop rest (insertKV acc s v)) = _
            by_cases hrest : rest = []
            · subst hrest
              exact absurd hp' (List.not_mem_nil p)
            · rw [if_neg hrest]
              exact ih rest (insertKV acc s v) (by simp at hlen; omega)
                (by simp at heven; omega) ⟨p, hp', hbadp⟩

/-- C8: the `Dict` helper returns an error on an odd argument count,
returns an error when any key of an even-length argument list is not a
string, and for every non-empty even-length list of alternating string
keys and values returns the key/value mapping built from the consecutive
pairs. -/
theorem c8_dict_contract (values : List GoVal) :
    (values.length % 2 = 1 → Dict values = DictResult.err "parameters must be even")
      ∧ (values.length % 2 = 0 → (∃ p ∈ pairsOf values, isStrKey p.1 = false) →
          Dict values = DictResult.err "type must equal to \"string\"")
      ∧ (¬ values = [] → values.length % 2 = 0 →
          (∀ p ∈ pairsOf values, isStrKey p.1 = true) →
          Dict values = DictResult.ok (buildMap (pairsOf values))) := by
  refine ⟨fun hodd => ?_, fun heven hbad => ?_, fun hne heven hkeys => ?_⟩
  · unfold Dict
    rw [if_pos (by omega)]
  · unfold Dict
    rw [if_neg (by omega)]
    exact dictLoop_err values.length values [] (le_refl _) heven hbad
  · unfold Dict
    rw [if_neg (by omega)]
    exact dictLoop_ok values.length values [] (le_refl _) hne heven hkeys

/-- C8 (witness): the three contract cases at concrete argument lists. -/
theorem c8_dict_witness :
    Dict [GoVal.str "a"] = DictResult.err "parameters must be even"
      ∧ Dict [GoVal.other 3, GoVal.str "v"] = DictResult.err "type must equal to \"string\""
      ∧ Dict [GoVal.str "k", GoVal.other 7] =
          DictResult.ok (buildMap (pairsOf [GoVal.str "k", GoVal.other 7])) :=
  ⟨(c8_dict_contract _).1 (by decide),
    (c8_dict_contract _).2.1 (by decide)
      ⟨(GoVal.other 3, GoVal.str "v"), by decide, rfl⟩,
    (c8_dict_contract _).2.2 (by decide) (by decide) (by decide)⟩

/-- C10: calling `Dict` with the empty (zero-length) argument list returns
neither a mapping nor an error: the loop body indexes `values[0]` before
any emptiness check, so the call is an out-of-range access, even though
the empty list has even length. -/
theorem c10_dict_empty :
    Dict [] = DictResult.indexOutOfRange ∧ (List.length ([] : List GoVal)) % 2 = 0 :=
  ⟨rfl, rfl⟩

/-- C7: the router's path-mapping rules, in order: a path with no extension
has the fixed index filename appended and is then rewritten exactly like a
path carrying that index file's extension (`.html`); a path ending in
`.html` is rewritten by stripping its last four characters and appending
the template extension `gohtml`; a path already carrying `.gohtml` renders
directly; any other extension falls through to the static-file path. -/
theorem c7_route_rules (p : String) :
    (pathExt p = "" → routeTemplate p =
        RouteResult.render (dropRightN (joinPath (joinPath "./src" p) "index.html") 4 ++ "gohtml")
        ∧ pathExt "index.html" = ".html")
      ∧ (pathExt p = ".html" → routeTemplate p =
          RouteResult.render (dropRightN (joinPath "./src" p) 4 ++ "gohtml"))
      ∧ (pathExt p = ".gohtml" → routeTemplate p = RouteResult.render (joinPath "./src" p))
      ∧ (¬ pathExt p = "" → ¬ pathExt p = ".html" → ¬ pathExt p = ".gohtml" →
          routeTemplate p = RouteResult.static) := by
  refine ⟨fun h => ⟨?_, rfl⟩, fun h => ?_, fun h => ?_, fun h1 h2 h3 => ?_⟩
  · unfold routeTemplate
    rw [h]
    simp
  · unfold routeTemplate
    rw [h]
    simp [(by decide : ¬ (".html" : String) = ""),
      (by decide : ¬ (".html" : String) = ".gohtml")]
  · unfold routeTemplate
    rw [h]
    simp [(by decide : ¬ (".gohtml" : String) = ""),
      (by decide : ¬ (".gohtml" : String) = ".html")]
  · unfold routeTemplate
    simp [h1, h2, h3]

/-- C7 (witness): the four rules at concrete request paths. -/
theorem c7_route_witness :
    routeTemplate "/" = RouteResult.render "src/index.gohtml"
      ∧ routeTemplate "/about.html" = RouteResult.render "src/about.gohtml"
      ∧ routeTemplate "/x.gohtml" = RouteResult.render "src/x.gohtml"
      ∧ routeTemplate "/img.png" = RouteResult.static :=
  ⟨((c7_route_rules "/").1 rfl).1.trans rfl,
    ((c7_route_rules "/about.html").2.1 rfl).trans rfl,
    ((c7_route_rules "/x.gohtml").2.2.1 rfl).trans rfl,
    (c7_route_rules "/img.png").2.2.2 (by decide) (by decide) (by decide)⟩

/-- A read failure of any file in the list aborts the pre-parse read. -/
lemma readAll_err (fs : FS) : ∀ paths t, t ∈ paths → readFile fs t = none →
    readAllFiles fs paths = Except.error "read failure" := by
  intro paths
  induction paths with
  | nil => intro t ht; cases ht
  | cons q rest ih =>
    intro t ht hnone
    simp only [readAllFiles]
    rcases List.mem_cons.mp ht with rfl | ht'
    · rw [hnone]
    · cases hq : readFile fs q with
      | none => rfl
      | some c => rw [ih t ht' hnone]

/-- C4: failure handling of the template branch: a resolution error is
answered with status 400 and an empty body; a parse-stage error is
answered with status 400 and the error text as the only body — in both
cases the response carries no rendered output, being independent of the
rendered text; and a read failure of any file of the resolved bundle,
including a transitively referenced template file, surfaces as such a
parse-stage error. -/
theorem c4_failure_response :
    (∀ (fs : FS) (T : List String) (oracle : List String → Except String Unit)
        (render : String) (n : Nat) (cur : String),
        getAllTmplName fs T n cur = some (Except.error ()) →
        handleTemplate fs T oracle render n cur = some ⟨400, ""⟩)
      ∧ (∀ (fs : FS) (T : List String) (oracle : List String → Except String Unit)
          (render : String) (n : Nat) (cur : String) (l : List String) (e : String),
          getAllTmplName fs T n cur = some (Except.ok l) →
          parseFiles fs oracle (l ++ [cur]) = Except.error e →
          handleTemplate fs T oracle render n cur = some ⟨400, e⟩)
      ∧ (∀ (fs : FS) (oracle : List String → Except String Unit) (paths : List String)
          (t : String), t ∈ paths → readFile fs t = none →
          parseFiles fs oracle paths = Except.error "read failure") := by
  refine ⟨?_, ?_, ?_⟩
  · intro fs T oracle render n cur h
    unfold handleTemplate
    rw [h]
  · intro fs T oracle render n cur l e h hp
    unfold handleTemplate
    rw [h]
    show (match parseFiles fs oracle (l ++ [cur]) with
      | Except.error e' => some (⟨400, e'⟩ : HResponse)
      | Except.ok _ => some (⟨200, render⟩ : HResponse)) = some ⟨400, e⟩
    rw [hp]
  · intro fs oracle paths t ht hnone
    unfold parseFiles
    rw [readAll_err fs paths t ht hnone]

/-- C4 (witness): a missing page, a failing parse, and a missing bundle
file, each surfaced as a 400 response or parse error on the concrete
instance. -/
theorem c4_failure_witness :
    handleTemplate fsW TW oracleOk "RENDERED" 1 "src/missing.gohtml" = some ⟨400, ""⟩
      ∧ handleTemplate fsW TW oracleBad "RENDERED" 3 "src/a.gohtml" = some ⟨400, "boom"⟩
      ∧ parseFiles fsW oracleOk ["src/nope.gohtml"] = Except.error "read failure" :=
  ⟨c4_failure_response.1 fsW TW oracleOk "RENDERED" 1 "src/missing.gohtml" rfl,
    c4_failure_response.2.1 fsW TW oracleBad "RENDERED" 3 "src/a.gohtml"
      ["tmpl/h.gohtml"] "boom" rfl rfl,
    c4_failure_response.2.2 fsW oracleOk ["src/nope.gohtml"] "src/nope.gohtml"
      (List.mem_singleton_self _) rfl⟩

